import Mathlib

/-!
Verification of the WebChalk composite playback scheduler.

The definitions below are a shallow embedding of the scheduling core:

* `AnimClip` carries the timing and sequencing fields of the `AnimClip`
  class (src/src/AnimTimeline.ts, second document, fields around lines
  1029-1055) that the commit algorithm reads and writes.  Times are
  modelled as rationals (the source uses JS numbers and only adds,
  compares, and divides them).
* `AnimSequence.commit` is the commit algorithm of
  `AnimSequence.commit()` (src/src/AnimSequence.ts lines 608-671).
* `groupIds` mirrors how `commit` partitions the clip list into
  `animClip_forwardGroupings` (a new group starts exactly when the
  current clip neither `startsWithPrevious` nor follows a clip with
  `startsNextClipToo`).
* The timeline stepping and jumping functions embed
  `AnimTimeline.step` / `stepForward` / `stepBackward` / `jumpTo`
  (src/src/AnimTimeline.ts lines 414-703).
-/

namespace WebChalk

/-- Timing and sequencing fields of an `AnimClip` used by the scheduler.
Source: field initializers of `AnimClip` (`startsNextClipToo = false`,
`startsWithPrevious = false`, `duration = 500`, `delay = 0`,
`endDelay = 0`, `playbackRate = 1`) plus `fullStartTime`, which
`AnimSequence.commit()` assigns (it is `NaN` before the first commit;
the model only ever inspects it on committed clips). -/
structure AnimClip where
  startsWithPrevious : Bool := false
  startsNextClipToo : Bool := false
  delay : ℚ := 0
  duration : ℚ := 500
  endDelay : ℚ := 0
  playbackRate : ℚ := 1
  fullStartTime : ℚ := 0
deriving Repr, DecidableEq

/-- Accessor `get activeStartTime() { return (this.fullStartTime + this.delay) / this.playbackRate; }` -/
def AnimClip.activeStartTime (c : AnimClip) : ℚ :=
  (c.fullStartTime + c.delay) / c.playbackRate

/-- Accessor `get activeFinishTime() { return (this.fullStartTime + this.delay + this.duration) / this.playbackRate; }` -/
def AnimClip.activeFinishTime (c : AnimClip) : ℚ :=
  (c.fullStartTime + c.delay + c.duration) / c.playbackRate

/-- Accessor `get fullFinishTime() { return (this.fullStartTime + this.delay + this.duration + this.endDelay) / this.playbackRate; }` -/
def AnimClip.fullFinishTime (c : AnimClip) : ℚ :=
  (c.fullStartTime + c.delay + c.duration + c.endDelay) / c.playbackRate

/-- The condition under which clip `c` joins the group of its immediate
predecessor `p`: `currAnimClip.startsWithPrevious || prevClip?.startsNextClipToo`. -/
def joinsPrev (p c : AnimClip) : Bool :=
  c.startsWithPrevious || p.startsNextClipToo

/-- The `currStartTime` computation of one iteration of the loop in
`AnimSequence.commit()` (src/src/AnimSequence.ts lines 626-653):
`startsWithPrev = currAnimClip.startsWithPrevious || prevClip?.startsNextClipToo`;
`if (startsWithPrev || i === 0) currStartTime = prevClip?.activeStartTime ?? 0;
else currStartTime = maxFinishTime;` (the predecessor is absent exactly
when `i === 0`). -/
def commitStartTime (prev : Option AnimClip) (maxFinishTime : ℚ) (c : AnimClip) : ℚ :=
  if (c.startsWithPrevious || (prev.map AnimClip.startsNextClipToo).getD false) || prev.isNone
  then (prev.map AnimClip.activeStartTime).getD 0
  else maxFinishTime

/-- The loop of `AnimSequence.commit()` (src/src/AnimSequence.ts
lines 626-660): walk the clips in insertion order carrying the previous
(already committed) clip and the running `maxFinishTime`; assign
`currAnimClip.fullStartTime = currStartTime`; afterwards
`maxFinishTime = Math.max(currAnimClip.fullFinishTime, maxFinishTime)`. -/
def AnimSequence.commitAux (prev : Option AnimClip) (maxFinishTime : ℚ) :
    List AnimClip → List AnimClip
  | [] => []
  | c :: rest =>
    let c2 := { c with fullStartTime := commitStartTime prev maxFinishTime c }
    c2 :: AnimSequence.commitAux (some c2) (max c2.fullFinishTime maxFinishTime) rest

/-- Embedding of `AnimSequence.commit()` restricted to its effect on the clips'
`fullStartTime` fields: `maxFinishTime` starts at `0` and there is no
predecessor for clip 0. -/
def AnimSequence.commit (clips : List AnimClip) : List AnimClip :=
  AnimSequence.commitAux none 0 clips

/-- Group indices of the clips as assigned by the
`animClip_forwardGroupings` construction inside `commit`: clip 0 is in
group 0, and clip `i+1` is in its predecessor's group iff
`joinsPrev` holds, else in a fresh group. -/
def groupIdsAux (prev : AnimClip) (g : Nat) : List AnimClip → List Nat
  | [] => []
  | c :: rest =>
    let g2 := if joinsPrev prev c then g else g + 1
    g2 :: groupIdsAux c g2 rest

/-- Group index list for a clip list (the committed list and the input
list give the same groups because `commit` only changes `fullStartTime`). -/
def groupIds : List AnimClip → List Nat
  | [] => []
  | c :: rest => 0 :: groupIdsAux c 0 rest

/-- Running maximum (seeded with `0`, like `maxFinishTime` in `commit`)
of the `fullFinishTime`s of the first `k` clips. -/
def maxFinishUpTo (out : List AnimClip) (k : Nat) : ℚ :=
  ((out.take k).map AnimClip.fullFinishTime).foldl max 0

/-- Three clips in three separate groups; the middle one has
`playbackRate = 2`, which makes its `fullFinishTime` (505) smaller than
the first clip's (1000). -/
def exC1 : List AnimClip :=
  [ { duration := 1000 },
    { duration := 10, playbackRate := 2 },
    { duration := 5 } ]

/-- Concrete two-clip sequence (the second clip joins the first's group)
used to witness `commit_assigns_fullStartTimes`. -/
def exC1w : List AnimClip :=
  [ { duration := 100 }, { startsWithPrevious := true, duration := 50 } ]

def exC1w0 : AnimClip := { duration := 100, fullStartTime := 0 }

def exC1w1 : AnimClip := { startsWithPrevious := true, duration := 50, fullStartTime := 0 }

/-- One grouping of three clips; the middle clip has `delay = 300`, so
the third clip starts at the middle clip's post-delay moment (300), not
at the first clip's (0). -/
def exC2 : List AnimClip :=
  [ { duration := 500 },
    { startsWithPrevious := true, delay := 300 },
    { startsWithPrevious := true } ]

def exC2c1 : AnimClip := { startsWithPrevious := true, delay := 300, fullStartTime := 0 }

def exC2c2 : AnimClip := { startsWithPrevious := true, fullStartTime := 300 }

/-- Two groupings: the second grouping's first clip has
`playbackRate = 2`, and its joining successor therefore starts at
`activeStartTime = 500`, before grouping 0's clip has finished (1000). -/
def exC3 : List AnimClip :=
  [ { duration := 1000 },
    { duration := 10, playbackRate := 2 },
    { startsWithPrevious := true, duration := 5 } ]

/-- Two independent clips in separate groupings, all rates 1. -/
def exW3 : List AnimClip := [ { duration := 100 }, { duration := 50 } ]

def exW3c0 : AnimClip := { duration := 100, fullStartTime := 0 }

def exW3c1 : AnimClip := { duration := 50, fullStartTime := 100 }

/-- A clip with `playbackRate = 2` committed after a 100 ms clip. -/
def exC4 : List AnimClip := [ { duration := 100 }, { duration := 10, playbackRate := 2 } ]

/-- The autoplay-relevant configuration flags of an `AnimSequence`
(src/src/AnimSequence.ts lines 244-245: both default to `false`). -/
structure SequenceFlags where
  autoplays : Bool := false
  autoplaysNextSequence : Bool := false
deriving Repr, DecidableEq

/-- Direction argument of `AnimTimeline.step`. -/
inductive StepDirection where
  | forward
  | backward
deriving Repr, DecidableEq

/-- The fields of `AnimTimeline` that the stepping and jumping logic
reads and writes (src/src/AnimTimeline.ts lines 78-85). -/
structure AnimTimeline where
  animSequences : List SequenceFlags := []
  loadedSeqIndex : Nat := 0
  isAnimating : Bool := false
  isPaused : Bool := false
  isJumping : Bool := false
  skippingOn : Bool := false
  currentDirection : StepDirection := .forward
deriving Repr, DecidableEq

/-- Array access `this.animSequences[i]`; the stepping code only ever
uses in-bounds indices, so the default value is never observed in the
theorems below. -/
def seqAt (seqs : List SequenceFlags) (i : Nat) : SequenceFlags :=
  seqs.getD i {}

/-- The continuation test of `stepForward()`
(src/src/AnimTimeline.ts lines 463-466), evaluated after
`++this.loadedSeqIndex` left the index at `i`:
`!this.atEnd && (sequences[i-1].autoplaysNextSequence || sequences[i].autoplays)`. -/
def autoplayNextCond (seqs : List SequenceFlags) (i : Nat) : Prop :=
  i < seqs.length ∧
    ((seqAt seqs (i - 1)).autoplaysNextSequence || (seqAt seqs i).autoplays) = true

instance (seqs : List SequenceFlags) (i : Nat) : Decidable (autoplayNextCond seqs i) :=
  inferInstanceAs (Decidable (_ ∧ _))

/-- The continuation test of `stepBackward()`
(src/src/AnimTimeline.ts lines 489-492), evaluated after
`--this.loadedSeqIndex` left the index at `i`:
`!this.atBeginning && (sequences[i-1].autoplaysNextSequence || sequences[i].autoplays)`. -/
def autorewindPrevCond (seqs : List SequenceFlags) (i : Nat) : Prop :=
  0 < i ∧
    ((seqAt seqs (i - 1)).autoplaysNextSequence || (seqAt seqs i).autoplays) = true

instance (seqs : List SequenceFlags) (i : Nat) : Decidable (autorewindPrevCond seqs i) :=
  inferInstanceAs (Decidable (_ ∧ _))

/-- The `do {continueOn = await this.stepForward();} while(continueOn)`
loop of `step('forward')` (src/src/AnimTimeline.ts line 425): starting
at `loadedSeqIndex = i`, each `stepForward()` plays the sequence at the
current index, increments the index, and reports whether to continue.
Returns the indices of the sequences played (in order) and the final
`loadedSeqIndex`. -/
def stepForwardLoop (seqs : List SequenceFlags) (i : Nat) : List Nat × Nat :=
  if h : autoplayNextCond seqs (i + 1) then
    let r := stepForwardLoop seqs (i + 1)
    (i :: r.1, r.2)
  else ([i], i + 1)
termination_by seqs.length - i
decreasing_by
  obtain ⟨h1, -⟩ := h
  omega

/-- The `do {continueOn = await this.stepBackward();} while(continueOn)`
loop of `step('backward')` (src/src/AnimTimeline.ts line 433): each
`stepBackward()` decrements the index, rewinds the sequence at the new
index, and reports whether to continue.  Returns the indices of the
sequences rewound (in order) and the final `loadedSeqIndex`. -/
def stepBackwardLoop (seqs : List SequenceFlags) (i : Nat) : List Nat × Nat :=
  if h : autorewindPrevCond seqs (i - 1) then
    let r := stepBackwardLoop seqs (i - 1)
    ((i - 1) :: r.1, r.2)
  else ([i - 1], i - 1)
termination_by i
decreasing_by
  obtain ⟨h1, -⟩ := h
  omega

/-- Embedding of `AnimTimeline.step(direction)` (src/src/AnimTimeline.ts lines
414-443): throws while paused or animating; at the corresponding edge of
the timeline the returned promise rejects before any sequence is played
or rewound; otherwise the step loop runs.  Errors and rejections are
both modelled as `.error` (neither plays a sequence, and neither
changes `loadedSeqIndex`); an `.ok` result carries the new timeline
state and the played (resp. rewound) sequence indices. -/
def AnimTimeline.step (t : AnimTimeline) (direction : StepDirection) :
    Except String (AnimTimeline × List Nat) :=
  if t.isPaused then .error "Cannot step while playback is paused."
  else if t.isAnimating then .error "Cannot step while already animating."
  else
    match direction with
    | .forward =>
      if t.loadedSeqIndex = t.animSequences.length then
        .error "Cannot stepForward at end of timeline."
      else
        let r := stepForwardLoop t.animSequences t.loadedSeqIndex
        .ok ({ t with loadedSeqIndex := r.2, currentDirection := .forward }, r.1)
    | .backward =>
      if t.loadedSeqIndex = 0 then
        .error "Cannot stepBackward at beginning of timeline."
      else
        let r := stepBackwardLoop t.animSequences t.loadedSeqIndex
        .ok ({ t with loadedSeqIndex := r.2, currentDirection := .backward }, r.1)

/-- A three-sequence timeline: sequence 0 autoplays the next one, and
sequence 2 autoplays. -/
def exT5 : AnimTimeline :=
  { animSequences :=
      [ { autoplaysNextSequence := true }, {}, { autoplays := true } ] }

/-- The `while (this.loadedSeqIndex < targetIndex) { await this.stepForward(); }`
loop of `jumpTo` (src/src/AnimTimeline.ts line 664): each `stepForward()`
plays the sequence at the current index and increments the index; the
autoplay flags it returns are ignored.  Returns the played indices and
the final index. -/
def jumpForwardSteps (i target : Nat) : List Nat × Nat :=
  if h : i < target then
    let r := jumpForwardSteps (i + 1) target
    (i :: r.1, r.2)
  else ([], i)
termination_by target - i

/-- The `while (this.loadedSeqIndex > targetIndex) { await this.stepBackward(); }`
loop of `jumpTo` (src/src/AnimTimeline.ts line 683): each `stepBackward()`
decrements the index and rewinds the sequence at the new index.  Returns
the rewound indices and the final index. -/
def jumpBackwardSteps (i target : Nat) : List Nat × Nat :=
  if h : target < i then
    let r := jumpBackwardSteps (i - 1) target
    ((i - 1) :: r.1, r.2)
  else ([], i)
termination_by i - target

/-- Embedding of `AnimTimeline.jumpToPosition(position)` with default options
(`targetOffset = 0`, `autoplayDetection = 'none'`), i.e. `jumpTo`
(src/src/AnimTimeline.ts lines 529-538 and 549-703) specialized to an
integer position: rejects while animating or jumping; computes
`targetIndex = position`; raises a `RangeError` when the target lies
outside `[0, numSequences]` before any stepping happens; otherwise
steps forward or backward to the target without autoplay consultation
(`autoplayDetection` is `'none'`), restoring the pause flag (`wasPaused`
round-trip) and clearing `isJumping` again at the end.  The event list
records which sequences were played (forward) or rewound (backward). -/
def AnimTimeline.jumpToPosition (t : AnimTimeline) (position : Int) :
    Except String (AnimTimeline × List Nat) :=
  if t.isAnimating then .error "Cannot use jumpTo while currently animating."
  else if t.isJumping then .error "Cannot perform simultaneous calls to jumpTo in timeline."
  else if position < 0 then
    .error "RangeError: jumping goes before timeline bounds."
  else if (t.animSequences.length : Int) < position then
    .error "RangeError: jumping goes ahead of timeline bounds."
  else
    let target := position.toNat
    if t.loadedSeqIndex ≤ target then
      let r := jumpForwardSteps t.loadedSeqIndex target
      .ok ({ t with
              loadedSeqIndex := r.2
              currentDirection :=
                if t.loadedSeqIndex < target then .forward else t.currentDirection },
           r.1)
    else
      let r := jumpBackwardSteps t.loadedSeqIndex target
      .ok ({ t with
              loadedSeqIndex := r.2
              currentDirection := .backward },
           r.1)

/-- A three-sequence timeline starting at index 2; used to witness
`timeline_jumpToPosition_spec` (jumping backward to position 1 and
rejecting position 4). -/
def exT6 : AnimTimeline :=
  { animSequences := [ {}, {}, {} ], loadedSeqIndex := 2 }

/-- Errors relevant to the claims about clip phase hooks
(src/src/utils/errors.ts; only the error kind matters here). -/
inductive ClipError where
  | invalidEntranceAttempt
  | commitStylesError
deriving Repr, DecidableEq

/-- Embedding of `EntranceClip._onStartForward` (src/src/categoricalClips.ts lines
49-86) restricted to its effect on the target element's class list: if
the class list contains `wbfk-hidden`, remove it and remember
`display-none` as the backwards hiding method; else if it contains
`wbfk-invisible`, remove it and remember `visibility-hidden`; otherwise
throw `InvalidEntranceAttempt`. -/
def EntranceClip.onStartForward (classList : List String) :
    Except ClipError (List String × String) :=
  if classList.contains "wbfk-hidden" then
    .ok (classList.erase "wbfk-hidden", "display-none")
  else if classList.contains "wbfk-invisible" then
    .ok (classList.erase "wbfk-invisible", "visibility-hidden")
  else
    .error .invalidEntranceAttempt

/-- Outcome of `AnimClip.animate` as far as error routing is concerned:
whether the play promise rejected (and with what), and whether
`this.root.pause()` ran. -/
structure AnimateOutcome where
  rejected : Option ClipError
  rootPaused : Bool
deriving Repr, DecidableEq

/-- The error routing of `AnimClip.animate` (src/src/AnimTimeline.ts,
second document): a phase hook that throws makes `onDelayFinish`
reject the clip promise with the thrown error, and the final
`return promise.catch((err) => { this.root.pause(); throw err; })`
(lines 1563-1566) pauses the root of the clip hierarchy and re-throws;
a successful hook leaves the promise pending toward resolution. -/
def AnimClip.animateRouting (startHook : Except ClipError (List String × String)) :
    AnimateOutcome :=
  match startHook with
  | .ok _ => { rejected := none, rootPaused := false }
  | .error e => { rejected := some e, rootPaused := true }

/-- The cascade in `AnimSequence.play()`: the play promises of launched
clips are awaited (`await Promise.all(parallelClips)`), so the first
clip whose promise rejected rejects the sequence play promise with the
same error. -/
def AnimSequence.playRejection (outcomes : List AnimateOutcome) : Option ClipError :=
  match outcomes with
  | [] => none
  | o :: rest =>
    match o.rejected with
    | some e => some e
    | none => AnimSequence.playRejection rest

/-- Per-sublist patch of `cssClasses` (`Partial<CssClassOptions>`,
src/src/AnimTimeline.ts second document, lines 871-888). -/
structure CssClassesPatch where
  toAddOnStart : Option (List String) := none
  toAddOnFinish : Option (List String) := none
  toRemoveOnStart : Option (List String) := none
  toRemoveOnFinish : Option (List String) := none
deriving Repr, DecidableEq

/-- A `Partial<AnimClipConfig>`: every configuration key optionally
set (src/src/AnimTimeline.ts second document, lines 890-967; `easing`
and `composite` are kept abstract as strings). -/
structure ConfigPatch where
  duration : Option ℚ := none
  delay : Option ℚ := none
  endDelay : Option ℚ := none
  playbackRate : Option ℚ := none
  easing : Option String := none
  composite : Option String := none
  commitsStyles : Option Bool := none
  commitStylesForcefully : Option Bool := none
  startsNextClipToo : Option Bool := none
  startsWithPrevious : Option Bool := none
  runGeneratorsNow : Option Bool := none
  cssClasses : CssClassesPatch := {}
deriving Repr, DecidableEq

/-- JS object-spread semantics for one key of `{...a, ...b}`: the later
layer wins exactly when it sets the key. -/
def lastSome2 {A : Type} (a b : Option A) : Option A :=
  match b with
  | some x => some x
  | none => a

/-- Modelled from the spec: `mergeArrays` lives in
src/utils/helpers.ts, which is not part of the snapshot; it combines
the CSS class lists contributed by the config layers into one list,
modelled as duplicate-free concatenation (its exact behavior is not
load-bearing for any claim). -/
def mergeArrays (ls : List (Option (List String))) : List String :=
  ((ls.map (fun o => o.getD [])).flatten).dedup

/-- The `cssClasses:` block of `AnimClip.mergeConfigs` (lines
1244-1268): each of the four lists is `mergeArrays` of the three
layers' lists, lowest layer first. -/
def mergeCssClasses (d g l4 : CssClassesPatch) : CssClassesPatch :=
  { toAddOnStart := some (mergeArrays [d.toAddOnStart, g.toAddOnStart, l4.toAddOnStart])
    toRemoveOnStart := some (mergeArrays [d.toRemoveOnStart, g.toRemoveOnStart, l4.toRemoveOnStart])
    toAddOnFinish := some (mergeArrays [d.toAddOnFinish, g.toAddOnFinish, l4.toAddOnFinish])
    toRemoveOnFinish :=
      some (mergeArrays [d.toRemoveOnFinish, g.toRemoveOnFinish, l4.toRemoveOnFinish]) }

/-- Embedding of `AnimClip.mergeConfigs(layer4Config, effectGeneratorConfig)`
(src/src/AnimTimeline.ts second document, lines 1232-1270):
`{...this.defaultConfig, ...effectGeneratorConfig, ...layer4Config,
cssClasses: {...}}` — for every scalar key the author-supplied
(layer-4) value wins over the bank entry config, which wins over the
clip-class defaults; the four CSS class lists are merged instead. -/
def AnimClip.mergeConfigs (defaultConfig layer4Config effectGeneratorConfig : ConfigPatch) :
    ConfigPatch :=
  { duration :=
      lastSome2 (lastSome2 defaultConfig.duration effectGeneratorConfig.duration)
        layer4Config.duration
    delay :=
      lastSome2 (lastSome2 defaultConfig.delay effectGeneratorConfig.delay) layer4Config.delay
    endDelay :=
      lastSome2 (lastSome2 defaultConfig.endDelay effectGeneratorConfig.endDelay)
        layer4Config.endDelay
    playbackRate :=
      lastSome2 (lastSome2 defaultConfig.playbackRate effectGeneratorConfig.playbackRate)
        layer4Config.playbackRate
    easing :=
      lastSome2 (lastSome2 defaultConfig.easing effectGeneratorConfig.easing) layer4Config.easing
    composite :=
      lastSome2 (lastSome2 defaultConfig.composite effectGeneratorConfig.composite)
        layer4Config.composite
    commitsStyles :=
      lastSome2 (lastSome2 defaultConfig.commitsStyles effectGeneratorConfig.commitsStyles)
        layer4Config.commitsStyles
    commitStylesForcefully :=
      lastSome2
        (lastSome2 defaultConfig.commitStylesForcefully
          effectGeneratorConfig.commitStylesForcefully)
        layer4Config.commitStylesForcefully
    startsNextClipToo :=
      lastSome2 (lastSome2 defaultConfig.startsNextClipToo effectGeneratorConfig.startsNextClipToo)
        layer4Config.startsNextClipToo
    startsWithPrevious :=
      lastSome2
        (lastSome2 defaultConfig.startsWithPrevious effectGeneratorConfig.startsWithPrevious)
        layer4Config.startsWithPrevious
    runGeneratorsNow :=
      lastSome2 (lastSome2 defaultConfig.runGeneratorsNow effectGeneratorConfig.runGeneratorsNow)
        layer4Config.runGeneratorsNow
    cssClasses :=
      mergeCssClasses defaultConfig.cssClasses effectGeneratorConfig.cssClasses
        layer4Config.cssClasses }

/-- A generator-bank entry as the spec describes the bank contract: its
`config`, plus the optional `defaultConfig` and `immutableConfig`
partial configs.  The source (`AnimClip.initialize`) only ever reads
`this.effectGenerator.config`. -/
structure BankEntry where
  config : ConfigPatch := {}
  defaultConfig : ConfigPatch := {}
  immutableConfig : ConfigPatch := {}
deriving Repr, DecidableEq

/-- The merge `AnimClip.initialize` actually performs
(src/src/AnimTimeline.ts second document, line 1140):
`this.mergeConfigs(effectConfig, this.effectGenerator.config ?? {})`.
The bank entry's `defaultConfig` and `immutableConfig` fields are never
consulted. -/
def effectiveConfig (classDefaults : ConfigPatch) (entry : BankEntry) (author : ConfigPatch) :
    ConfigPatch :=
  AnimClip.mergeConfigs classDefaults author entry.config

/-- The spec's layered precedence for a single configuration key
(layers listed lowest to highest): the value of the highest layer that
sets the key. -/
def layeredPick {A : Type} (layers : List (Option A)) : Option A :=
  layers.foldl lastSome2 none

/-- Three-layer precedence merge written following the spec's wording
restricted to the layers the source consults, lowest to highest:
clip-class defaults, then the bank entry config, then the
author-supplied config; CSS class lists are combined across layers. -/
def spec_threeLayerMerge (classDefaults bankConfig author : ConfigPatch) : ConfigPatch :=
  { duration := layeredPick [classDefaults.duration, bankConfig.duration, author.duration]
    delay := layeredPick [classDefaults.delay, bankConfig.delay, author.delay]
    endDelay := layeredPick [classDefaults.endDelay, bankConfig.endDelay, author.endDelay]
    playbackRate :=
      layeredPick [classDefaults.playbackRate, bankConfig.playbackRate, author.playbackRate]
    easing := layeredPick [classDefaults.easing, bankConfig.easing, author.easing]
    composite := layeredPick [classDefaults.composite, bankConfig.composite, author.composite]
    commitsStyles :=
      layeredPick [classDefaults.commitsStyles, bankConfig.commitsStyles, author.commitsStyles]
    commitStylesForcefully :=
      layeredPick [classDefaults.commitStylesForcefully, bankConfig.commitStylesForcefully,
        author.commitStylesForcefully]
    startsNextClipToo :=
      layeredPick [classDefaults.startsNextClipToo, bankConfig.startsNextClipToo,
        author.startsNextClipToo]
    startsWithPrevious :=
      layeredPick [classDefaults.startsWithPrevious, bankConfig.startsWithPrevious,
        author.startsWithPrevious]
    runGeneratorsNow :=
      layeredPick [classDefaults.runGeneratorsNow, bankConfig.runGeneratorsNow,
        author.runGeneratorsNow]
    cssClasses := mergeCssClasses classDefaults.cssClasses bankConfig.cssClasses
      author.cssClasses }

/-- Modelled from the spec: the five-layer precedence the spec claims
for the effective configuration, lowest to highest: clip-class
defaults, bank entry `defaultConfig`, bank entry `config`,
author-supplied config, bank entry `immutableConfig`.  (Code realizing
the `defaultConfig` and `immutableConfig` layers is absent from the
snapshot; this definition follows the spec text for comparison.) -/
def spec_fiveLayerMerge (classDefaults : ConfigPatch) (entry : BankEntry)
    (author : ConfigPatch) : ConfigPatch :=
  { duration := layeredPick [classDefaults.duration, entry.defaultConfig.duration,
      entry.config.duration, author.duration, entry.immutableConfig.duration]
    delay := layeredPick [classDefaults.delay, entry.defaultConfig.delay, entry.config.delay,
      author.delay, entry.immutableConfig.delay]
    endDelay := layeredPick [classDefaults.endDelay, entry.defaultConfig.endDelay,
      entry.config.endDelay, author.endDelay, entry.immutableConfig.endDelay]
    playbackRate := layeredPick [classDefaults.playbackRate, entry.defaultConfig.playbackRate,
      entry.config.playbackRate, author.playbackRate, entry.immutableConfig.playbackRate]
    easing := layeredPick [classDefaults.easing, entry.defaultConfig.easing, entry.config.easing,
      author.easing, entry.immutableConfig.easing]
    composite := layeredPick [classDefaults.composite, entry.defaultConfig.composite,
      entry.config.composite, author.composite, entry.immutableConfig.composite]
    commitsStyles := layeredPick [classDefaults.commitsStyles, entry.defaultConfig.commitsStyles,
      entry.config.commitsStyles, author.commitsStyles, entry.immutableConfig.commitsStyles]
    commitStylesForcefully := layeredPick [classDefaults.commitStylesForcefully,
      entry.defaultConfig.commitStylesForcefully, entry.config.commitStylesForcefully,
      author.commitStylesForcefully, entry.immutableConfig.commitStylesForcefully]
    startsNextClipToo := layeredPick [classDefaults.startsNextClipToo,
      entry.defaultConfig.startsNextClipToo, entry.config.startsNextClipToo,
      author.startsNextClipToo, entry.immutableConfig.startsNextClipToo]
    startsWithPrevious := layeredPick [classDefaults.startsWithPrevious,
      entry.defaultConfig.startsWithPrevious, entry.config.startsWithPrevious,
      author.startsWithPrevious, entry.immutableConfig.startsWithPrevious]
    runGeneratorsNow := layeredPick [classDefaults.runGeneratorsNow,
      entry.defaultConfig.runGeneratorsNow, entry.config.runGeneratorsNow,
      author.runGeneratorsNow, entry.immutableConfig.runGeneratorsNow]
    cssClasses := mergeCssClasses classDefaults.cssClasses entry.config.cssClasses
      author.cssClasses }

/-- Bank entry that sets `duration := 42` in its `immutableConfig`. -/
def exBank : BankEntry := { immutableConfig := { duration := some 42 } }

/-- Author config that sets `duration := 7`. -/
def exAuthor : ConfigPatch := { duration := some 7 }

/-- The configuration-bearing instance fields of `AnimClip` with their
initializers (src/src/AnimTimeline.ts second document, lines
1029-1049): `commitsStyles = true`, `composite = 'replace'`,
`duration = 500`, `delay = 0`, `endDelay = 0`, `easing = 'linear'`,
`playbackRate = 1`, the flags false, the CSS class lists empty. -/
structure ClipFields where
  duration : ℚ := 500
  delay : ℚ := 0
  endDelay : ℚ := 0
  playbackRate : ℚ := 1
  easing : String := "linear"
  composite : String := "replace"
  commitsStyles : Bool := true
  commitStylesForcefully : Bool := false
  startsNextClipToo : Bool := false
  startsWithPrevious : Bool := false
  runGeneratorsNow : Bool := false
  cssToAddOnStart : List String := []
  cssToAddOnFinish : List String := []
  cssToRemoveOnStart : List String := []
  cssToRemoveOnFinish : List String := []
deriving Repr, DecidableEq

/-- Embedding of `Object.assign(this, mergedConfig)` (line 1141): every key the
patch sets overwrites the corresponding instance field. -/
def objectAssign (c : ClipFields) (p : ConfigPatch) : ClipFields :=
  { duration := p.duration.getD c.duration
    delay := p.delay.getD c.delay
    endDelay := p.endDelay.getD c.endDelay
    playbackRate := p.playbackRate.getD c.playbackRate
    easing := p.easing.getD c.easing
    composite := p.composite.getD c.composite
    commitsStyles := p.commitsStyles.getD c.commitsStyles
    commitStylesForcefully := p.commitStylesForcefully.getD c.commitStylesForcefully
    startsNextClipToo := p.startsNextClipToo.getD c.startsNextClipToo
    startsWithPrevious := p.startsWithPrevious.getD c.startsWithPrevious
    runGeneratorsNow := p.runGeneratorsNow.getD c.runGeneratorsNow
    cssToAddOnStart := p.cssClasses.toAddOnStart.getD c.cssToAddOnStart
    cssToAddOnFinish := p.cssClasses.toAddOnFinish.getD c.cssToAddOnFinish
    cssToRemoveOnStart := p.cssClasses.toRemoveOnStart.getD c.cssToRemoveOnStart
    cssToRemoveOnFinish := p.cssClasses.toRemoveOnFinish.getD c.cssToRemoveOnFinish }

/-- The configuration part of `AnimClip.initialize` (src lines
1133-1143): merge the three layers, `Object.assign` onto the instance,
then clamp `this.duration = Math.max(this.duration, 0.01)` ("cannot be
exactly 0 because that causes some Animation-related bugs"). -/
def AnimClip.initFields (classDefaults : ConfigPatch) (c : ClipFields)
    (effectConfig effectGeneratorConfig : ConfigPatch) : ClipFields :=
  let merged := AnimClip.mergeConfigs classDefaults effectConfig effectGeneratorConfig
  let c2 := objectAssign c merged
  { c2 with duration := max c2.duration (1 / 100 : ℚ) }

/-- Embedding of `ConnectorSetterClip`'s `defaultConfig` getter
(src/src/categoricalClips.ts lines 240-247): duration 0, does not
commit styles, pregenerates, starts the next clip too. -/
def ConnectorSetterClip.defaultConfig : ConfigPatch :=
  { duration := some 0
    commitsStyles := some false
    runGeneratorsNow := some true
    startsNextClipToo := some true }

/-- Stable insertion of a clip into a list sorted ascending by
`fullFinishTime` (models the comparator
`endDelayFinishComparator = (a, b) => a.fullFinishTime - b.fullFinishTime`
passed to the stable `Array.prototype.sort`). -/
def insertByFullFinish (c : AnimClip) : List AnimClip → List AnimClip
  | [] => [c]
  | d :: rest =>
    if c.fullFinishTime < d.fullFinishTime then c :: d :: rest
    else d :: insertByFullFinish c rest

/-- Stable sort ascending by `fullFinishTime`
(`currEndDelayGrouping.sort(endDelayFinishComparator)` in `commit`). -/
def sortByFullFinish : List AnimClip → List AnimClip
  | [] => []
  | c :: rest => insertByFullFinish c (sortByFullFinish rest)

/-- Splits a clip list into the `animClip_forwardGroupings` partition
built by `commit`: maximal runs linked by `joinsPrev`. -/
def groupSplit (prev : AnimClip) (acc : List AnimClip) : List AnimClip → List (List AnimClip)
  | [] => [acc.reverse]
  | c :: rest =>
    if joinsPrev prev c then groupSplit c (c :: acc) rest
    else acc.reverse :: groupSplit c [c] rest

/-- Value of `animClip_forwardGroupings` after a commit (the source initializes
it to `[[]]`, so an empty sequence keeps one empty grouping). -/
def forwardGroupings : List AnimClip → List (List AnimClip)
  | [] => [[]]
  | c :: rest => groupSplit c [c] rest

/-- The clip launch order of `AnimSequence.rewind()`
(src/src/AnimSequence.ts lines 478-511): iterate the
`endDelayFinishOrder` groupings from last to first; within a grouping,
launch the grouping's last clip first, then walk backward. -/
def rewindLaunchOrder (clips : List AnimClip) : List AnimClip :=
  (((forwardGroupings clips).map (fun g => (sortByFullFinish g).reverse)).reverse).flatten

/-- The status fields of an `AnimSequence` together with its clip list
(src/src/AnimSequence.ts lines 185-214). -/
structure AnimSequenceState where
  clips : List AnimClip := []
  inProgress : Bool := false
  isRunning : Bool := false
  isPaused : Bool := false
  isFinished : Bool := false
  wasPlayed : Bool := false
  wasRewound : Bool := false
  usingFinish : Bool := false
deriving Repr, DecidableEq

/-- Embedding of `AnimSequence.play()` (src/src/AnimSequence.ts lines 390-449): the
re-entrancy guard `if (this.inProgress) { return this; }` comes first;
otherwise the sequence commits, launches every clip in insertion order
(groups run sequentially; within a group, launches proceed in insertion
order), and — modelling the completed run — ends with the status
updates of lines 440-445 (`isFinished = wasPlayed = true`,
`wasRewound = usingFinish = false`).  The returned list is the launch
order of the clips. -/
def AnimSequence.play (s : AnimSequenceState) : AnimSequenceState × List AnimClip :=
  if s.inProgress then (s, [])
  else
    ({ s with
        clips := AnimSequence.commit s.clips
        inProgress := false
        isRunning := false
        isFinished := true
        wasPlayed := true
        wasRewound := false
        usingFinish := false },
     AnimSequence.commit s.clips)

/-- Embedding of `AnimSequence.rewind()` (src/src/AnimSequence.ts lines 457-522):
the same guard first; otherwise the clips are rewound, groupings last
to first (no fresh commit is run), ending with the status updates of
lines 513-518.  The returned list is the rewind launch order. -/
def AnimSequence.rewind (s : AnimSequenceState) : AnimSequenceState × List AnimClip :=
  if s.inProgress then (s, [])
  else
    ({ s with
        inProgress := false
        isRunning := false
        isFinished := true
        wasPlayed := false
        wasRewound := true
        usingFinish := false },
     rewindLaunchOrder s.clips)

/-- The status fields of an `AnimClip` (lines 1042-1044). -/
structure ClipStatus where
  inProgress : Bool := false
  isRunning : Bool := false
  isPaused : Bool := false
deriving Repr, DecidableEq

/-- Embedding of `AnimClip.animate(direction)` (src/src/AnimTimeline.ts second
document, lines 1386-1388 and 1556-1561): the guard
`if (this.inProgress) { return this; }` comes before any host-animation
work; otherwise the host animation is launched and, once
`onEndDelayFinish` runs, `inProgress` and `isRunning` are false again.
The Bool records whether the host animation was launched. -/
def AnimClip.animateStatus (st : ClipStatus) : ClipStatus × Bool :=
  if st.inProgress then (st, false)
  else ({ st with inProgress := false, isRunning := false }, true)

theorem commitAux_nil (prev : Option AnimClip) (m : ℚ) :
    AnimSequence.commitAux prev m [] = [] := rfl

theorem commitAux_cons (prev : Option AnimClip) (m : ℚ) (c : AnimClip) (rest : List AnimClip) :
    AnimSequence.commitAux prev m (c :: rest) =
      { c with fullStartTime := commitStartTime prev m c } ::
        AnimSequence.commitAux (some { c with fullStartTime := commitStartTime prev m c })
          (max ({ c with fullStartTime := commitStartTime prev m c } : AnimClip).fullFinishTime m)
          rest := rfl

theorem update_startsWithPrevious (c : AnimClip) (x : ℚ) :
    ({ c with fullStartTime := x } : AnimClip).startsWithPrevious = c.startsWithPrevious := rfl

theorem update_startsNextClipToo (c : AnimClip) (x : ℚ) :
    ({ c with fullStartTime := x } : AnimClip).startsNextClipToo = c.startsNextClipToo := rfl

theorem update_fullStartTime (c : AnimClip) (x : ℚ) :
    ({ c with fullStartTime := x } : AnimClip).fullStartTime = x := rfl

theorem commitStartTime_none (m : ℚ) (c : AnimClip) :
    commitStartTime none m c = 0 := by
  simp [commitStartTime]

theorem commitStartTime_some (p : AnimClip) (m : ℚ) (c : AnimClip) :
    commitStartTime (some p) m c = if joinsPrev p c then p.activeStartTime else m := by
  simp only [commitStartTime, joinsPrev, Option.map_some', Option.getD_some, Option.isNone_some,
    Bool.or_false]

theorem commitAux_length (l : List AnimClip) :
    ∀ (prev : Option AnimClip) (m : ℚ), (AnimSequence.commitAux prev m l).length = l.length := by
  induction l with
  | nil => intro prev m; rfl
  | cons c rest ih =>
    intro prev m
    simp only [commitAux_cons, List.length_cons]
    rw [ih]

/-- Characterization of the `fullStartTime` assigned to each clip after
the head of a `commitAux` run: it is its immediate predecessor's
`activeStartTime` when the clip joins the predecessor's group, else the
running maximum (seeded with `m`) of all earlier committed
`fullFinishTime`s. -/
theorem commitAux_pair (l : List AnimClip) :
    ∀ (prev : Option AnimClip) (m : ℚ) (j : Nat) (cj cj1 : AnimClip),
    (AnimSequence.commitAux prev m l)[j]? = some cj →
    (AnimSequence.commitAux prev m l)[j+1]? = some cj1 →
    cj1.fullStartTime =
      if joinsPrev cj cj1 then cj.activeStartTime
      else (((AnimSequence.commitAux prev m l).take (j+1)).map AnimClip.fullFinishTime).foldl max m := by
  induction l with
  | nil =>
    intro prev m j cj cj1 h1 _
    simp [commitAux_nil] at h1
  | cons c rest ih =>
    intro prev m j cj cj1 h1 h2
    rw [commitAux_cons] at h1 h2 ⊢
    set c2 : AnimClip := { c with fullStartTime := commitStartTime prev m c } with hc2
    match j with
    | 0 =>
      simp only [List.getElem?_cons_zero, Option.some.injEq] at h1
      simp only [Nat.zero_add, List.getElem?_cons_succ] at h2
      subst h1
      match rest with
      | [] => simp [commitAux_nil] at h2
      | d :: rest2 =>
        rw [commitAux_cons] at h2
        simp only [List.getElem?_cons_zero, Option.some.injEq] at h2
        subst h2
        rw [commitStartTime_some]
        simp only [update_fullStartTime, joinsPrev, update_startsWithPrevious,
          List.take_succ_cons, List.take_zero, List.map_cons, List.map_nil, List.foldl_cons,
          List.foldl_nil]
        by_cases hj : (d.startsWithPrevious || c2.startsNextClipToo) = true
        · simp [hj]
        · simp only [Bool.not_eq_true] at hj
          simp [hj, max_comm]
    | k + 1 =>
      simp only [List.getElem?_cons_succ] at h1 h2
      have := ih (some c2) (max c2.fullFinishTime m) k cj cj1 h1 h2
      rw [this]
      by_cases hj : joinsPrev cj cj1 = true
      · simp [hj]
      · simp only [Bool.not_eq_true] at hj
        simp only [hj, if_false, List.take_succ_cons, List.map_cons, List.foldl_cons]
        rw [max_comm]

/-- Clip 0 is always assigned `fullStartTime = 0` by `commit` (the
predecessor is absent so `prevClip?.activeStartTime ?? 0` is `0`). -/
theorem commit_head (clips : List AnimClip) (c0 : AnimClip) :
    (AnimSequence.commit clips)[0]? = some c0 → c0.fullStartTime = 0 := by
  cases clips with
  | nil => intro h; simp [AnimSequence.commit, commitAux_nil] at h
  | cons c rest =>
    intro h
    rw [AnimSequence.commit, commitAux_cons] at h
    simp only [List.getElem?_cons_zero, Option.some.injEq] at h
    subst h
    simp [update_fullStartTime, commitStartTime_none]

theorem init_le_foldl_max (L : List ℚ) : ∀ (a : ℚ), a ≤ L.foldl max a := by
  induction L with
  | nil => intro a; simp
  | cons y L ih =>
    intro a
    rw [List.foldl_cons]
    exact le_trans (le_max_left a y) (ih (max a y))

theorem le_foldl_max (L : List ℚ) :
    ∀ (a x : ℚ), x ∈ L → x ≤ L.foldl max a := by
  induction L with
  | nil => intro a x hx; simp at hx
  | cons y L ih =>
    intro a x hx
    rw [List.foldl_cons]
    rcases List.mem_cons.mp hx with h | h
    · subst h
      exact le_trans (le_max_right a x) (init_le_foldl_max L (max a x))
    · exact ih (max a y) x h

theorem getElem?_length_some {α : Type} (l : List α) (j : Nat) (h : j < l.length) :
    ∃ x, l[j]? = some x := by
  exact ⟨l[j], List.getElem?_eq_getElem h⟩

theorem groupIdsAux_length (l : List AnimClip) :
    ∀ (p : AnimClip) (g : Nat), (groupIdsAux p g l).length = l.length := by
  induction l with
  | nil => intro p g; rfl
  | cons c rest ih => intro p g; simp only [groupIdsAux, List.length_cons]; rw [ih]

theorem groupIds_length (l : List AnimClip) : (groupIds l).length = l.length := by
  cases l with
  | nil => rfl
  | cons c rest => simp only [groupIds, List.length_cons]; rw [groupIdsAux_length]

theorem groupIdsAux_adj (l : List AnimClip) :
    ∀ (p : AnimClip) (g : Nat) (j : Nat) (cj cj1 : AnimClip) (gj gj1 : Nat),
    l[j]? = some cj → l[j+1]? = some cj1 →
    (groupIdsAux p g l)[j]? = some gj → (groupIdsAux p g l)[j+1]? = some gj1 →
    gj1 = if joinsPrev cj cj1 then gj else gj + 1 := by
  induction l with
  | nil => intro p g j cj cj1 gj gj1 h1 _ _ _; simp at h1
  | cons c rest ih =>
    intro p g j cj cj1 gj gj1 h1 h2 h3 h4
    match j with
    | 0 =>
      simp only [List.getElem?_cons_zero, Option.some.injEq] at h1
      simp only [Nat.zero_add, List.getElem?_cons_succ] at h2
      simp only [groupIdsAux, List.getElem?_cons_zero, Option.some.injEq] at h3
      simp only [groupIdsAux, Nat.zero_add, List.getElem?_cons_succ] at h4
      subst h1
      match rest with
      | [] => simp at h2
      | d :: rest2 =>
        simp only [List.getElem?_cons_zero, Option.some.injEq] at h2
        simp only [groupIdsAux, List.getElem?_cons_zero, Option.some.injEq] at h4
        subst h2
        rw [← h3, ← h4]
    | k + 1 =>
      simp only [List.getElem?_cons_succ] at h1 h2
      simp only [groupIdsAux, List.getElem?_cons_succ] at h3 h4
      exact ih c _ k cj cj1 gj gj1 h1 h2 h3 h4

/-- Adjacent clips get the same group index exactly when the later one
joins the earlier one's group; otherwise the index increases by one. -/
theorem groupIds_adj (l : List AnimClip) (j : Nat) (cj cj1 : AnimClip) (gj gj1 : Nat)
    (h1 : l[j]? = some cj) (h2 : l[j+1]? = some cj1)
    (h3 : (groupIds l)[j]? = some gj) (h4 : (groupIds l)[j+1]? = some gj1) :
    gj1 = if joinsPrev cj cj1 then gj else gj + 1 := by
  cases l with
  | nil => simp at h1
  | cons c rest =>
    match j with
    | 0 =>
      simp only [List.getElem?_cons_zero, Option.some.injEq] at h1
      simp only [Nat.zero_add, List.getElem?_cons_succ] at h2
      simp only [groupIds, List.getElem?_cons_zero, Option.some.injEq] at h3
      simp only [groupIds, Nat.zero_add, List.getElem?_cons_succ] at h4
      subst h1
      match rest with
      | [] => simp at h2
      | d :: rest2 =>
        simp only [List.getElem?_cons_zero, Option.some.injEq] at h2
        simp only [groupIdsAux, List.getElem?_cons_zero, Option.some.injEq] at h4
        subst h2
        rw [← h3, ← h4]
    | k + 1 =>
      simp only [List.getElem?_cons_succ] at h1 h2
      simp only [groupIds, List.getElem?_cons_succ] at h3 h4
      exact groupIdsAux_adj rest c 0 k cj cj1 gj gj1 h1 h2 h3 h4

/-- Group indices are nondecreasing along the clip list. -/
theorem groupIds_mono (l : List AnimClip) :
    ∀ (j i : Nat) (gi gj : Nat), i ≤ j →
    (groupIds l)[i]? = some gi → (groupIds l)[j]? = some gj → gi ≤ gj := by
  intro j
  induction j with
  | zero =>
    intro i gi gj hij h1 h2
    have : i = 0 := Nat.le_zero.mp hij
    subst this
    exact le_of_eq (Option.some.inj (h1.symm.trans h2))
  | succ k ih =>
    intro i gi gj hij h1 h2
    rcases Nat.lt_or_ge i (k+1) with hlt | hge
    · obtain ⟨hk1len, -⟩ := List.getElem?_eq_some.mp h2
      have hk : k < (groupIds l).length := by omega
      obtain ⟨gk, hgk⟩ := getElem?_length_some _ k hk
      have hkl : k < l.length := by rw [← groupIds_length l]; exact hk
      have hk1l : k + 1 < l.length := by rw [← groupIds_length l]; exact hk1len
      obtain ⟨ck, hck⟩ := getElem?_length_some l k hkl
      obtain ⟨ck1, hck1⟩ := getElem?_length_some l (k+1) hk1l
      have hadj := groupIds_adj l k ck ck1 gk gj hck hck1 hgk h2
      have h1k : gi ≤ gk := ih i gi gk (by omega) h1 hgk
      by_cases hjn : joinsPrev ck ck1 = true
      · simp only [hjn, if_true] at hadj; omega
      · simp only [Bool.not_eq_true] at hjn
        simp only [hjn, Bool.false_eq_true, if_false] at hadj; omega
    · have : i = k + 1 := by omega
      subst this
      exact le_of_eq (Option.some.inj (h1.symm.trans h2))

/-- Specialization of `commitAux_pair` to a full `commit` run (predecessor
absent, `maxFinishTime` seeded with `0`). -/
theorem commit_pair (clips : List AnimClip) (j : Nat) (cj cj1 : AnimClip)
    (h1 : (AnimSequence.commit clips)[j]? = some cj)
    (h2 : (AnimSequence.commit clips)[j+1]? = some cj1) :
    cj1.fullStartTime =
      if joinsPrev cj cj1 then cj.activeStartTime
      else maxFinishUpTo (AnimSequence.commit clips) (j+1) :=
  commitAux_pair clips none 0 j cj cj1 h1 h2

/-- Claim C1 (amended).  After `AnimSequence.commit()` runs, the assigned
`fullStartTime` of every clip follows three rules: clip 0 gets
`fullStartTime = 0`; a clip that joins the current group (its
`startsWithPrevious` is true or its immediate predecessor's
`startsNextClipToo` is true) gets `fullStartTime` equal to the immediate
predecessor's `activeStartTime`; and a clip that begins a new group gets
`fullStartTime` equal to the maximum `fullFinishTime` over all
preceding clips (the source keeps one running `maxFinishTime` over the
whole walk; this agrees with the maximum over the previous group only
when every clip finishes no earlier than it starts, which can fail, for
example, when a playback rate exceeds 1). -/
theorem commit_assigns_fullStartTimes (clips : List AnimClip) :
    (∀ c0 : AnimClip, (AnimSequence.commit clips)[0]? = some c0 → c0.fullStartTime = 0) ∧
    (∀ (j : Nat) (cj cj1 : AnimClip), (AnimSequence.commit clips)[j]? = some cj →
      (AnimSequence.commit clips)[j+1]? = some cj1 → joinsPrev cj cj1 = true →
      cj1.fullStartTime = cj.activeStartTime) ∧
    (∀ (j : Nat) (cj cj1 : AnimClip), (AnimSequence.commit clips)[j]? = some cj →
      (AnimSequence.commit clips)[j+1]? = some cj1 → joinsPrev cj cj1 = false →
      cj1.fullStartTime = maxFinishUpTo (AnimSequence.commit clips) (j+1)) := by
  refine ⟨commit_head clips, ?_, ?_⟩
  · intro j cj cj1 h1 h2 hj
    have := commit_pair clips j cj cj1 h1 h2
    simpa [hj] using this
  · intro j cj cj1 h1 h2 hj
    have := commit_pair clips j cj cj1 h1 h2
    simpa [hj] using this

/-- Claim C1 counterexample.  In `exC1` each clip is its own group
(group ids 0, 1, 2), so the maximum `fullFinishTime` over the group
preceding clip 2 is clip 1's `fullFinishTime = 505`; but `commit`
assigns clip 2 `fullStartTime = 1000` (the running maximum over *all*
earlier clips, dominated by clip 0).  Hence the claim's rule
"fullStartTime equals the maximum fullFinishTime over the clips of the
previous group" fails at this input. -/
theorem commit_assigns_fullStartTimes_counterexample :
    groupIds (AnimSequence.commit exC1) = [0, 1, 2] ∧
    ((AnimSequence.commit exC1)[1]?).map AnimClip.fullFinishTime = some 505 ∧
    ((AnimSequence.commit exC1)[2]?).map AnimClip.fullStartTime = some 1000 ∧
    (1000 : ℚ) ≠ 505 := by
  refine ⟨?_, ?_, ?_, by norm_num⟩ <;>
    norm_num [exC1, AnimSequence.commit, AnimSequence.commitAux, commitStartTime, joinsPrev,
      AnimClip.fullFinishTime, AnimClip.activeStartTime, groupIds, groupIdsAux]

theorem commit_assigns_fullStartTimes_witness :
    exC1w0.fullStartTime = 0 ∧ exC1w1.fullStartTime = exC1w0.activeStartTime := by
  have h := commit_assigns_fullStartTimes exC1w
  refine ⟨h.1 exC1w0 ?_, h.2.1 0 exC1w0 exC1w1 ?_ ?_ rfl⟩ <;>
    norm_num [exC1w, exC1w0, exC1w1, AnimSequence.commit, AnimSequence.commitAux,
      commitStartTime, AnimClip.activeStartTime]

/-- Claim C2 (amended).  After `AnimSequence.commit()`, for every pair of
clips `(i, j)` in the same grouping with `i < j`, clip `j`'s
`fullStartTime` equals the `activeStartTime` of its immediate
predecessor (clip `j-1`, which lies in the same grouping) — not, in
general, the `activeStartTime` of the grouping's first clip: joining
clips are anchored pairwise, so delays of intermediate group members
stack. -/
theorem commit_same_group_start_times (clips : List AnimClip) (i j : Nat) (gi gj : Nat)
    (hij : i < j)
    (hgi : (groupIds (AnimSequence.commit clips))[i]? = some gi)
    (hgj : (groupIds (AnimSequence.commit clips))[j]? = some gj)
    (hsame : gi = gj) :
    ∀ cp cj : AnimClip, (AnimSequence.commit clips)[j-1]? = some cp →
      (AnimSequence.commit clips)[j]? = some cj →
      cj.fullStartTime = cp.activeStartTime ∧
      (groupIds (AnimSequence.commit clips))[j-1]? = some gj := by
  intro cp cj hcp hcj
  obtain ⟨k, rfl⟩ : ∃ k, j = k + 1 := ⟨j - 1, by omega⟩
  simp only [Nat.add_sub_cancel] at hcp ⊢
  obtain ⟨hklen, -⟩ := List.getElem?_eq_some.mp hcj
  have hkg : k < (groupIds (AnimSequence.commit clips)).length := by
    rw [groupIds_length]; omega
  obtain ⟨gk, hgk⟩ := getElem?_length_some _ k hkg
  have hik : gi ≤ gk := groupIds_mono _ k i gi gk (by omega) hgi hgk
  have hkj : gk ≤ gj := groupIds_mono _ (k+1) k gk gj (by omega) hgk hgj
  have hgkj : gk = gj := by omega
  have hadj := groupIds_adj (AnimSequence.commit clips) k cp cj gk gj hcp hcj hgk hgj
  have hjoin : joinsPrev cp cj = true := by
    by_cases hb : joinsPrev cp cj = true
    · exact hb
    · simp only [Bool.not_eq_true] at hb
      simp only [hb, Bool.false_eq_true, if_false] at hadj
      omega
  have := commit_pair clips k cp cj hcp hcj
  simp only [hjoin, if_true] at this
  exact ⟨this, hgkj ▸ hgk⟩

/-- Claim C2 counterexample.  In `exC2` all three clips share grouping 0
and clip 0 is the grouping's first clip, yet clip 2's
`fullStartTime = 300` differs from clip 0's `activeStartTime = 0`:
`commit` anchors each joining clip to its immediate predecessor, whose
delay stacks. -/
theorem commit_same_group_start_times_counterexample :
    groupIds (AnimSequence.commit exC2) = [0, 0, 0] ∧
    ((AnimSequence.commit exC2)[0]?).map AnimClip.activeStartTime = some 0 ∧
    ((AnimSequence.commit exC2)[2]?).map AnimClip.fullStartTime = some 300 ∧
    (300 : ℚ) ≠ 0 := by
  refine ⟨?_, ?_, ?_, by norm_num⟩ <;>
    norm_num [exC2, AnimSequence.commit, AnimSequence.commitAux, commitStartTime, joinsPrev,
      AnimClip.activeStartTime, groupIds, groupIdsAux]

theorem commit_same_group_start_times_witness :
    exC2c2.fullStartTime = exC2c1.activeStartTime ∧
    (groupIds (AnimSequence.commit exC2))[1]? = some 0 := by
  have h := commit_same_group_start_times exC2 0 2 0 0 (by omega) ?_ ?_ rfl exC2c1 exC2c2 ?_ ?_
  · exact h
  all_goals
    norm_num [exC2, exC2c1, exC2c2, AnimSequence.commit, AnimSequence.commitAux, commitStartTime,
      joinsPrev, AnimClip.activeStartTime, groupIds, groupIdsAux]

/-- Claim C3 (amended).  After `AnimSequence.commit()`, for clips at
indices `i < j` lying in different groupings, clip `i`'s
`fullFinishTime` is at most clip `j`'s `fullStartTime`, provided
every committed clip has `playbackRate = 1` and a nonnegative `delay`
(the claim as stated fails when a playback rate other than 1 shrinks a
clip's scheduled times, because the accessors divide by the rate). -/
theorem commit_cross_group_ordering (clips : List AnimClip)
    (hcond : ∀ c ∈ AnimSequence.commit clips, c.playbackRate = 1 ∧ 0 ≤ c.delay) :
    ∀ (j i : Nat) (ci cj : AnimClip) (gi gj : Nat), i < j →
    (AnimSequence.commit clips)[i]? = some ci →
    (AnimSequence.commit clips)[j]? = some cj →
    (groupIds (AnimSequence.commit clips))[i]? = some gi →
    (groupIds (AnimSequence.commit clips))[j]? = some gj →
    gi ≠ gj →
    ci.fullFinishTime ≤ cj.fullStartTime := by
  intro j
  induction j using Nat.strong_induction_on with
  | _ j ih =>
    intro i ci cj gi gj hij hci hcj hgi hgj hne
    obtain ⟨k, rfl⟩ : ∃ k, j = k + 1 := ⟨j - 1, by omega⟩
    obtain ⟨hklen, -⟩ := List.getElem?_eq_some.mp hcj
    obtain ⟨ck, hck⟩ := getElem?_length_some (AnimSequence.commit clips) k (by omega)
    have hkg : k < (groupIds (AnimSequence.commit clips)).length := by
      rw [groupIds_length]; omega
    obtain ⟨gk, hgk⟩ := getElem?_length_some _ k hkg
    have hadj := groupIds_adj (AnimSequence.commit clips) k ck cj gk gj hck hcj hgk hgj
    have hpair := commit_pair clips k ck cj hck hcj
    by_cases hjoin : joinsPrev ck cj = true
    · simp only [hjoin, if_true] at hpair
      simp only [hjoin, if_true] at hadj
      have hik : i ≠ k := by
        intro hik2
        subst hik2
        have : gi = gk := Option.some.inj (hgi.symm.trans hgk)
        omega
      have hi_lt : i < k := by omega
      have hprev : ci.fullFinishTime ≤ ck.fullStartTime :=
        ih k (by omega) i ci ck gi gk hi_lt hci hck hgi hgk (by omega)
      obtain ⟨hr, hd⟩ := hcond ck (List.getElem?_mem hck)
      have : ck.fullStartTime ≤ ck.activeStartTime := by
        rw [AnimClip.activeStartTime, hr, div_one]
        linarith
      rw [hpair]
      linarith
    · simp only [Bool.not_eq_true] at hjoin
      simp only [hjoin, Bool.false_eq_true, if_false] at hpair
      rw [hpair, maxFinishUpTo]
      refine le_foldl_max _ 0 ci.fullFinishTime ?_
      refine List.mem_map_of_mem AnimClip.fullFinishTime ?_
      have : ((AnimSequence.commit clips).take (k+1))[i]? = some ci := by
        rw [List.getElem?_take_of_lt (by omega)]
        exact hci
      exact List.getElem?_mem this

/-- Claim C3 counterexample.  In `exC3`, clips 0 and 2 are in different
groupings (ids 0 and 1) and are not linked by any same-group chain, yet
clip 0's `fullFinishTime = 1000` exceeds clip 2's
`fullStartTime = 500`. -/
theorem commit_cross_group_ordering_counterexample :
    groupIds (AnimSequence.commit exC3) = [0, 1, 1] ∧
    ((AnimSequence.commit exC3)[0]?).map AnimClip.fullFinishTime = some 1000 ∧
    ((AnimSequence.commit exC3)[2]?).map AnimClip.fullStartTime = some 500 ∧
    ¬ ((1000 : ℚ) ≤ 500) := by
  refine ⟨?_, ?_, ?_, by norm_num⟩ <;>
    norm_num [exC3, AnimSequence.commit, AnimSequence.commitAux, commitStartTime, joinsPrev,
      AnimClip.fullFinishTime, AnimClip.activeStartTime, groupIds, groupIdsAux]

theorem commit_cross_group_ordering_witness :
    exW3c0.fullFinishTime ≤ exW3c1.fullStartTime := by
  refine commit_cross_group_ordering exW3 ?_ 1 0 exW3c0 exW3c1 0 1 (by omega) ?_ ?_ ?_ ?_ (by omega)
  all_goals
    norm_num [exW3, exW3c0, exW3c1, AnimSequence.commit, AnimSequence.commitAux, commitStartTime,
      joinsPrev, AnimClip.fullFinishTime, groupIds, groupIdsAux, List.forall_mem_cons]

/-- Claim C4 (amended).  For every clip of a committed sequence, the four
scheduled times satisfy
`activeStartTime = (fullStartTime + delay) / playbackRate`,
`activeFinishTime = (fullStartTime + delay + duration) / playbackRate`,
`fullFinishTime = (fullStartTime + delay + duration + endDelay) / playbackRate`
(`fullStartTime` itself is *not* divided by the rate); consequently,
when the clip's `playbackRate` is 1 and its `delay`, `duration` and
`endDelay` are nonnegative, the chain
`fullStartTime ≤ activeStartTime = fullStartTime + delay ≤
activeFinishTime = activeStartTime + duration ≤ fullFinishTime =
activeFinishTime + endDelay` holds.  (For rates other than 1 the three
derived times are scaled by the rate while `fullStartTime` is not, and
the chain of the claim fails.) -/
theorem clip_scheduled_times_chain (clips : List AnimClip) (c : AnimClip)
    (hc : c ∈ AnimSequence.commit clips)
    (hrate : c.playbackRate = 1) (hd : 0 ≤ c.delay) (hdur : 0 ≤ c.duration)
    (he : 0 ≤ c.endDelay) :
    c.fullStartTime ≤ c.activeStartTime ∧
    c.activeStartTime = c.fullStartTime + c.delay ∧
    c.activeStartTime ≤ c.activeFinishTime ∧
    c.activeFinishTime = c.activeStartTime + c.duration ∧
    c.activeFinishTime ≤ c.fullFinishTime ∧
    c.fullFinishTime = c.activeFinishTime + c.endDelay := by
  rw [AnimClip.activeStartTime, AnimClip.activeFinishTime, AnimClip.fullFinishTime, hrate,
    div_one, div_one, div_one]
  refine ⟨by linarith, rfl, by linarith, by ring, by linarith, by ring⟩

/-- Claim C4 counterexample.  The second committed clip of `exC4` has
`fullStartTime = 100` but `activeStartTime = (100 + 0) / 2 = 50`, so
neither `fullStartTime ≤ activeStartTime` nor
`activeStartTime = fullStartTime + delay` holds for it. -/
theorem clip_scheduled_times_chain_counterexample :
    ∃ c ∈ AnimSequence.commit exC4,
      ¬ (c.fullStartTime ≤ c.activeStartTime ∧
         c.activeStartTime = c.fullStartTime + c.delay) := by
  refine ⟨{ duration := 10, playbackRate := 2, fullStartTime := 100 }, ?_, ?_⟩
  · norm_num [exC4, AnimSequence.commit, AnimSequence.commitAux, commitStartTime, joinsPrev,
      AnimClip.fullFinishTime]
  · norm_num [AnimClip.activeStartTime]

theorem clip_scheduled_times_chain_witness :
    exW3c0.fullStartTime ≤ exW3c0.activeStartTime ∧
    exW3c0.activeStartTime = exW3c0.fullStartTime + exW3c0.delay ∧
    exW3c0.activeStartTime ≤ exW3c0.activeFinishTime ∧
    exW3c0.activeFinishTime = exW3c0.activeStartTime + exW3c0.duration ∧
    exW3c0.activeFinishTime ≤ exW3c0.fullFinishTime ∧
    exW3c0.fullFinishTime = exW3c0.activeFinishTime + exW3c0.endDelay := by
  refine clip_scheduled_times_chain exW3 exW3c0 ?_ rfl ?_ ?_ ?_
  all_goals
    norm_num [exW3, exW3c0, AnimSequence.commit, AnimSequence.commitAux, commitStartTime,
      AnimClip.fullFinishTime]

/-- Behavior of the forward step loop: it plays exactly the contiguous
run of indices from the start index up to (excluding) the final index,
the continuation condition held at every intermediate index, and fails
at the final index. -/
theorem stepForwardLoop_spec (seqs : List SequenceFlags) (i : Nat) :
    (stepForwardLoop seqs i).1 = List.range' i ((stepForwardLoop seqs i).2 - i) ∧
    i < (stepForwardLoop seqs i).2 ∧
    (i < seqs.length → (stepForwardLoop seqs i).2 ≤ seqs.length) ∧
    (∀ k, i < k → k < (stepForwardLoop seqs i).2 → autoplayNextCond seqs k) ∧
    ¬ autoplayNextCond seqs (stepForwardLoop seqs i).2 := by
  induction i using stepForwardLoop.induct seqs with
  | case1 i h ih =>
    rw [stepForwardLoop]
    simp only [dif_pos h]
    obtain ⟨ihr, ihlt, ihbound, ihall, ihlast⟩ := ih
    have hlen := h.1
    refine ⟨?_, by omega, fun _ => ihbound hlen, ?_, ihlast⟩
    · rw [ihr]
      have h2 : (stepForwardLoop seqs (i+1)).2 - i = ((stepForwardLoop seqs (i+1)).2 - (i+1)) + 1 := by
        omega
      rw [h2, List.range'_succ]
    · intro k hk1 hk2
      rcases Nat.eq_or_lt_of_le hk1 with heq | hlt
      · subst heq; exact h
      · exact ihall k (by omega) hk2
  | case2 i h =>
    rw [stepForwardLoop]
    simp only [dif_neg h]
    refine ⟨by simp [List.range'], by omega, by omega, ?_, h⟩
    intro k hk1 hk2
    omega

/-- Behavior of the backward step loop: starting from index `i > 0` it
rewinds the contiguous run of indices from `i - 1` down to the final
index, the continuation condition held at every index strictly between,
and fails at the final index. -/
theorem stepBackwardLoop_spec (seqs : List SequenceFlags) (i : Nat) :
    0 < i →
    (stepBackwardLoop seqs i).1 =
      (List.range' (stepBackwardLoop seqs i).2 (i - (stepBackwardLoop seqs i).2)).reverse ∧
    (stepBackwardLoop seqs i).2 < i ∧
    (∀ k, (stepBackwardLoop seqs i).2 < k → k < i → autorewindPrevCond seqs k) ∧
    ¬ autorewindPrevCond seqs (stepBackwardLoop seqs i).2 := by
  induction i using stepBackwardLoop.induct seqs with
  | case1 i h ih =>
    intro hi
    rw [stepBackwardLoop]
    simp only [dif_pos h]
    have hpos := h.1
    obtain ⟨ihr, ihlt, ihall, ihlast⟩ := ih hpos
    refine ⟨?_, by omega, ?_, ihlast⟩
    · rw [ihr]
      have h2 : i - (stepBackwardLoop seqs (i-1)).2 =
          ((i - 1) - (stepBackwardLoop seqs (i-1)).2) + 1 := by omega
      rw [h2, List.range'_1_concat]
      have h3 : (stepBackwardLoop seqs (i-1)).2 + ((i - 1) - (stepBackwardLoop seqs (i-1)).2) =
          i - 1 := by omega
      rw [List.reverse_append, h3]
      simp
    · intro k hk1 hk2
      rcases Nat.lt_or_ge k (i - 1) with hlt | hge
      · exact ihall k hk1 hlt
      · have : k = i - 1 := by omega
        subst this
        exact h
  | case2 i h =>
    intro hi
    rw [stepBackwardLoop]
    simp only [dif_neg h]
    have h1 : i - (i - 1) = 1 := by omega
    refine ⟨?_, by omega, ?_, h⟩
    · rw [h1]
      simp [List.range']
    · intro k hk1 hk2
      omega

/-- Claim C5. For every timeline that is neither paused nor animating and
whose `loadedSeqIndex` respects invariant I2 (`≤ numSequences`):
`step('forward')` plays the sequence at `loadedSeqIndex`, increments the
index, and repeats exactly while the timeline is not at its end and
(the just-completed sequence's `autoplaysNextSequence` is true OR the
newly loaded sequence's `autoplays` is true); symmetrically,
`step('backward')` rewinds the sequence at `loadedSeqIndex - 1` and
repeats under the mirrored condition; and calling `step` at the
corresponding edge of the timeline (`atEnd` for forward, `atBeginning`
for backward) rejects without playing any sequence. -/
theorem timeline_step_spec (t : AnimTimeline)
    (hp : t.isPaused = false) (ha : t.isAnimating = false)
    (hinv : t.loadedSeqIndex ≤ t.animSequences.length) :
    (t.loadedSeqIndex = t.animSequences.length → ∃ e, t.step .forward = .error e) ∧
    (t.loadedSeqIndex < t.animSequences.length →
      ∃ (t2 : AnimTimeline) (played : List Nat), t.step .forward = .ok (t2, played) ∧
        played = List.range' t.loadedSeqIndex (t2.loadedSeqIndex - t.loadedSeqIndex) ∧
        t.loadedSeqIndex < t2.loadedSeqIndex ∧
        t2.loadedSeqIndex ≤ t.animSequences.length ∧
        (∀ k, t.loadedSeqIndex < k → k < t2.loadedSeqIndex →
          autoplayNextCond t.animSequences k) ∧
        ¬ autoplayNextCond t.animSequences t2.loadedSeqIndex) ∧
    (t.loadedSeqIndex = 0 → ∃ e, t.step .backward = .error e) ∧
    (0 < t.loadedSeqIndex →
      ∃ (t2 : AnimTimeline) (rewound : List Nat), t.step .backward = .ok (t2, rewound) ∧
        rewound = (List.range' t2.loadedSeqIndex (t.loadedSeqIndex - t2.loadedSeqIndex)).reverse ∧
        t2.loadedSeqIndex < t.loadedSeqIndex ∧
        (∀ k, t2.loadedSeqIndex < k → k < t.loadedSeqIndex →
          autorewindPrevCond t.animSequences k) ∧
        ¬ autorewindPrevCond t.animSequences t2.loadedSeqIndex) := by
  refine ⟨?_, ?_, ?_, ?_⟩
  · intro hend
    refine ⟨"Cannot stepForward at end of timeline.", ?_⟩
    simp [AnimTimeline.step, hp, ha, hend]
  · intro hlt
    obtain ⟨hr, hlt2, hbound, hall, hlast⟩ := stepForwardLoop_spec t.animSequences t.loadedSeqIndex
    refine ⟨{ t with
                loadedSeqIndex := (stepForwardLoop t.animSequences t.loadedSeqIndex).2
                currentDirection := .forward },
            (stepForwardLoop t.animSequences t.loadedSeqIndex).1, ?_, hr, hlt2, hbound hlt,
            hall, hlast⟩
    simp [AnimTimeline.step, hp, ha, Nat.ne_of_lt hlt]
  · intro hbeg
    refine ⟨"Cannot stepBackward at beginning of timeline.", ?_⟩
    simp [AnimTimeline.step, hp, ha, hbeg]
  · intro hpos
    obtain ⟨hr, hlt2, hall, hlast⟩ := stepBackwardLoop_spec t.animSequences t.loadedSeqIndex hpos
    refine ⟨{ t with
                loadedSeqIndex := (stepBackwardLoop t.animSequences t.loadedSeqIndex).2
                currentDirection := .backward },
            (stepBackwardLoop t.animSequences t.loadedSeqIndex).1, ?_, hr, hlt2, hall, hlast⟩
    simp [AnimTimeline.step, hp, ha, Nat.pos_iff_ne_zero.mp hpos]

theorem timeline_step_spec_witness :
    (∃ (t2 : AnimTimeline) (played : List Nat),
        exT5.step .forward = .ok (t2, played) ∧
        played = List.range' exT5.loadedSeqIndex (t2.loadedSeqIndex - exT5.loadedSeqIndex)) ∧
    (∃ e, exT5.step .backward = .error e) := by
  obtain ⟨-, h2, h3, -⟩ := timeline_step_spec exT5 rfl rfl (by norm_num [exT5])
  constructor
  · obtain ⟨t2, played, hok, hr, -⟩ := h2 (by norm_num [exT5])
    exact ⟨t2, played, hok, hr⟩
  · exact h3 rfl

theorem jumpForwardSteps_spec (i target : Nat) (h : i ≤ target) :
    (jumpForwardSteps i target).2 = target ∧
    (jumpForwardSteps i target).1 = List.range' i (target - i) := by
  revert h
  induction i, target using jumpForwardSteps.induct with
  | case1 i target hlt ih =>
    intro h
    rw [jumpForwardSteps]
    simp only [dif_pos hlt]
    obtain ⟨ih2, ih1⟩ := ih (by omega)
    refine ⟨ih2, ?_⟩
    rw [ih1]
    have h2 : target - i = (target - (i + 1)) + 1 := by omega
    rw [h2, List.range'_succ]
  | case2 i target hge =>
    intro h
    rw [jumpForwardSteps]
    simp only [dif_neg hge]
    have : i = target := by omega
    subst this
    simp

theorem jumpBackwardSteps_spec (i target : Nat) (h : target ≤ i) :
    (jumpBackwardSteps i target).2 = target ∧
    (jumpBackwardSteps i target).1 = (List.range' target (i - target)).reverse := by
  revert h
  induction i, target using jumpBackwardSteps.induct with
  | case1 i target hlt ih =>
    intro h
    rw [jumpBackwardSteps]
    simp only [dif_pos hlt]
    obtain ⟨ih2, ih1⟩ := ih (by omega)
    refine ⟨ih2, ?_⟩
    rw [ih1]
    have h2 : i - target = ((i - 1) - target) + 1 := by omega
    rw [h2, List.range'_1_concat]
    have h3 : target + ((i - 1) - target) = i - 1 := by omega
    rw [List.reverse_append, h3]
    simp
  | case2 i target hge =>
    intro h
    rw [jumpBackwardSteps]
    simp only [dif_neg hge]
    have : i = target := by omega
    subst this
    simp

/-- Claim C6. For every timeline that is not animating or jumping:
`jumpToPosition(k)` with default options completes with
`loadedSeqIndex = k` for every integer `k` with `0 ≤ k ≤ numSequences`,
regardless of the starting `loadedSeqIndex` (and it does not change the
pause flag or the sequence list); for `k` outside those bounds it raises
a `RangeError` before any sequence is played or rewound (the result
carries no events and no state change). -/
theorem timeline_jumpToPosition_spec (t : AnimTimeline) (k : Int)
    (ha : t.isAnimating = false) (hj : t.isJumping = false) :
    (0 ≤ k ∧ k ≤ (t.animSequences.length : Int) →
      ∃ (t2 : AnimTimeline) (events : List Nat),
        t.jumpToPosition k = .ok (t2, events) ∧
        (t2.loadedSeqIndex : Int) = k ∧
        t2.isPaused = t.isPaused ∧
        t2.animSequences = t.animSequences) ∧
    ((k < 0 ∨ (t.animSequences.length : Int) < k) →
      ∃ e, t.jumpToPosition k = .error e) := by
  constructor
  · rintro ⟨hk0, hkn⟩
    have hnotneg : ¬ k < 0 := by omega
    have hnotbig : ¬ (t.animSequences.length : Int) < k := by omega
    by_cases hdir : t.loadedSeqIndex ≤ k.toNat
    · obtain ⟨h2, h1⟩ := jumpForwardSteps_spec t.loadedSeqIndex k.toNat hdir
      refine ⟨{ t with
                  loadedSeqIndex := (jumpForwardSteps t.loadedSeqIndex k.toNat).2
                  currentDirection :=
                    if t.loadedSeqIndex < k.toNat then .forward else t.currentDirection },
              (jumpForwardSteps t.loadedSeqIndex k.toNat).1, ?_, ?_, rfl, rfl⟩
      · simp [AnimTimeline.jumpToPosition, ha, hj, hnotneg, hnotbig, hdir]
      · simp only [h2]
        omega
    · push_neg at hdir
      obtain ⟨h2, h1⟩ := jumpBackwardSteps_spec t.loadedSeqIndex k.toNat (by omega)
      refine ⟨{ t with
                  loadedSeqIndex := (jumpBackwardSteps t.loadedSeqIndex k.toNat).2
                  currentDirection := .backward },
              (jumpBackwardSteps t.loadedSeqIndex k.toNat).1, ?_, ?_, rfl, rfl⟩
      · have hdir2 : ¬ t.loadedSeqIndex ≤ k.toNat := by omega
        simp [AnimTimeline.jumpToPosition, ha, hj, hnotneg, hnotbig, hdir2]
      · simp only [h2]
        omega
  · intro hout
    rcases hout with hneg | hbig
    · refine ⟨"RangeError: jumping goes before timeline bounds.", ?_⟩
      simp [AnimTimeline.jumpToPosition, ha, hj, hneg]
    · refine ⟨"RangeError: jumping goes ahead of timeline bounds.", ?_⟩
      have hnotneg : ¬ k < 0 := by
        have := t.animSequences.length
        omega
      simp [AnimTimeline.jumpToPosition, ha, hj, hnotneg, hbig]

theorem timeline_jumpToPosition_spec_witness :
    (∃ (t2 : AnimTimeline) (events : List Nat),
        exT6.jumpToPosition 1 = .ok (t2, events) ∧ (t2.loadedSeqIndex : Int) = 1) ∧
    (∃ e, exT6.jumpToPosition 4 = .error e) := by
  constructor
  · obtain ⟨t2, events, hok, hidx, -, -⟩ :=
      (timeline_jumpToPosition_spec exT6 1 rfl rfl).1 (by norm_num [exT6])
    exact ⟨t2, events, hok, hidx⟩
  · exact (timeline_jumpToPosition_spec exT6 4 rfl rfl).2 (by norm_num [exT6])

theorem playRejection_append_ok (pre : List AnimateOutcome)
    (hpre : ∀ o ∈ pre, o.rejected = none) (rest : List AnimateOutcome) :
    AnimSequence.playRejection (pre ++ rest) = AnimSequence.playRejection rest := by
  induction pre with
  | nil => simp
  | cons o pre ih =>
    have ho := hpre o (List.mem_cons_self o pre)
    simp only [List.cons_append, AnimSequence.playRejection, ho]
    exact ih (fun o2 ho2 => hpre o2 (List.mem_cons_of_mem o ho2))

/-- Claim C7. For every Entrance clip whose target element bears neither
of the recognized hiding classes (`wbfk-hidden`, `wbfk-invisible`) at
the start of forward playback, `_onStartForward` raises
`InvalidEntranceAttempt`; the clip play promise rejects with that error
and the root of the clip hierarchy is paused; and in a sequence whose
earlier launched clips all completed normally, the sequence play
promise rejects with the same error. -/
theorem entrance_not_hidden_raises (classList : List String)
    (h1 : classList.contains "wbfk-hidden" = false)
    (h2 : classList.contains "wbfk-invisible" = false) :
    EntranceClip.onStartForward classList = .error .invalidEntranceAttempt ∧
    (AnimClip.animateRouting (EntranceClip.onStartForward classList)).rejected =
      some .invalidEntranceAttempt ∧
    (AnimClip.animateRouting (EntranceClip.onStartForward classList)).rootPaused = true ∧
    (∀ pre : List AnimateOutcome, (∀ o ∈ pre, o.rejected = none) →
      AnimSequence.playRejection
        (pre ++ [AnimClip.animateRouting (EntranceClip.onStartForward classList)]) =
        some .invalidEntranceAttempt) := by
  have h1m : "wbfk-hidden" ∉ classList := by simpa using h1
  have h2m : "wbfk-invisible" ∉ classList := by simpa using h2
  have hhook : EntranceClip.onStartForward classList = .error .invalidEntranceAttempt := by
    simp [EntranceClip.onStartForward, h1m, h2m]
  refine ⟨hhook, ?_, ?_, ?_⟩
  · rw [hhook]; rfl
  · rw [hhook]; rfl
  · intro pre hpre
    rw [playRejection_append_ok pre hpre, hhook]
    rfl

theorem entrance_not_hidden_raises_witness :
    EntranceClip.onStartForward ["square", "highlightable"] =
      .error .invalidEntranceAttempt ∧
    (AnimClip.animateRouting
        (EntranceClip.onStartForward ["square", "highlightable"])).rootPaused = true := by
  have h := entrance_not_hidden_raises ["square", "highlightable"] (by decide) (by decide)
  exact ⟨h.1, h.2.2.1⟩

theorem lastSome2_none_left {A : Type} (a : Option A) : lastSome2 none a = a := by
  cases a <;> rfl

/-- Claim C8 (amended).  For every clip, the effective configuration is
merged from exactly three layers with precedence, lowest to
highest: clip-class defaults, then the bank entry's `config`, then the
author-supplied config (the four CSS class lists are combined across
the layers instead of replaced); the bank entry's `defaultConfig` and
`immutableConfig` are not consulted by `AnimClip.mergeConfigs` /
`AnimClip.initialize`, so the author-supplied value wins for every key
it sets. -/
theorem clip_config_merge_three_layers :
    (∀ d g l4 : ConfigPatch, AnimClip.mergeConfigs d l4 g = spec_threeLayerMerge d g l4) ∧
    (∀ (d : ConfigPatch) (entry : BankEntry) (author : ConfigPatch),
      effectiveConfig d entry author = spec_threeLayerMerge d entry.config author) := by
  have hmain : ∀ d g l4 : ConfigPatch, AnimClip.mergeConfigs d l4 g = spec_threeLayerMerge d g l4 := by
    intro d g l4
    simp only [AnimClip.mergeConfigs, spec_threeLayerMerge, layeredPick, List.foldl_cons,
      List.foldl_nil, lastSome2_none_left]
  exact ⟨hmain, fun d entry author => hmain d entry.config author⟩

/-- Claim C8 counterexample.  For a key (`duration`) set in the bank
entry's `immutableConfig`, the code's merge
(`AnimClip.initialize` → `AnimClip.mergeConfigs`) lets the
author-supplied value (7) win, while the spec's five-layer precedence
would give the immutable value (42): the claimed immutable layer does
not exist in the merge the source performs. -/
theorem clip_config_merge_counterexample :
    exBank.immutableConfig.duration = some 42 ∧
    (spec_fiveLayerMerge {} exBank exAuthor).duration = some 42 ∧
    (effectiveConfig {} exBank exAuthor).duration = some 7 ∧
    (effectiveConfig {} exBank exAuthor).duration ≠
      (spec_fiveLayerMerge {} exBank exAuthor).duration := by
  refine ⟨rfl, rfl, rfl, ?_⟩
  norm_num [effectiveConfig, AnimClip.mergeConfigs, spec_fiveLayerMerge, layeredPick,
    lastSome2, exBank, exAuthor]

/-- Claim C9 (amended).  For every ConnectorSetter clip whose author
config and bank entry config leave `duration` and `startsNextClipToo`
unset, after initialization its duration is 0.01 (the category's
`duration: 0` default, clamped by `initialize` to the 0.01 minimum)
and its `startsNextClipToo` flag is true.  These come from the
category's `defaultConfig`, the lowest-precedence layer, so author
configuration can override both (rather than the category forcing
them). -/
theorem connectorSetter_init_defaults (author bankCfg : ConfigPatch) (c : ClipFields)
    (h1 : author.duration = none) (h2 : bankCfg.duration = none)
    (h3 : author.startsNextClipToo = none) (h4 : bankCfg.startsNextClipToo = none) :
    (AnimClip.initFields ConnectorSetterClip.defaultConfig c author bankCfg).duration =
      (1 / 100 : ℚ) ∧
    (AnimClip.initFields ConnectorSetterClip.defaultConfig c author bankCfg).startsNextClipToo =
      true := by
  constructor
  · simp only [AnimClip.initFields, AnimClip.mergeConfigs, objectAssign,
      ConnectorSetterClip.defaultConfig, h1, h2, lastSome2, Option.getD_some]
    norm_num
  · simp only [AnimClip.initFields, AnimClip.mergeConfigs, objectAssign,
      ConnectorSetterClip.defaultConfig, h3, h4, lastSome2, Option.getD_some]

/-- Claim C9 counterexample.  With nothing else configured, an
initialized ConnectorSetter clip has `duration = 1/100`, not the
claimed `0` (the `Math.max(duration, 0.01)` clamp); and an author
config can override `startsNextClipToo` to `false`, so the category
does not force either value "regardless of author configuration". -/
theorem connectorSetter_init_defaults_counterexample :
    (AnimClip.initFields ConnectorSetterClip.defaultConfig {} {} {}).duration = (1 / 100 : ℚ) ∧
    (1 / 100 : ℚ) ≠ 0 ∧
    (AnimClip.initFields ConnectorSetterClip.defaultConfig {}
        { duration := some 300, startsNextClipToo := some false } {}).startsNextClipToo =
      false ∧
    (AnimClip.initFields ConnectorSetterClip.defaultConfig {}
        { duration := some 300, startsNextClipToo := some false } {}).duration = 300 := by
  refine ⟨?_, by norm_num, ?_, ?_⟩
  · simp only [AnimClip.initFields, AnimClip.mergeConfigs, objectAssign,
      ConnectorSetterClip.defaultConfig, lastSome2, Option.getD_some]
    norm_num
  · simp only [AnimClip.initFields, AnimClip.mergeConfigs, objectAssign,
      ConnectorSetterClip.defaultConfig, lastSome2, Option.getD_some]
  · simp only [AnimClip.initFields, AnimClip.mergeConfigs, objectAssign,
      ConnectorSetterClip.defaultConfig, lastSome2, Option.getD_some]
    norm_num

theorem connectorSetter_init_defaults_witness :
    (AnimClip.initFields ConnectorSetterClip.defaultConfig {} {} {}).duration = (1 / 100 : ℚ) ∧
    (AnimClip.initFields ConnectorSetterClip.defaultConfig {} {} {}).startsNextClipToo = true :=
  connectorSetter_init_defaults {} {} {} rfl rfl rfl rfl

/-- Claim C10. For every sequence `S` with `S.inProgress = true`, calling
`S.play()` or `S.rewind()` returns `S` immediately as a no-op: no
commit runs, no clip is launched, and none of the status fields
(`inProgress`, `isRunning`, `isPaused`, `isFinished`, `wasPlayed`,
`wasRewound`, `usingFinish`) change; the same re-entrancy guard holds
for an individual clip whose `inProgress` is true when `animate` is
invoked (no host animation is launched and its status is unchanged). -/
theorem inProgress_reentrancy_noop (s : AnimSequenceState) (st : ClipStatus)
    (hs : s.inProgress = true) (hc : st.inProgress = true) :
    AnimSequence.play s = (s, []) ∧
    AnimSequence.rewind s = (s, []) ∧
    AnimClip.animateStatus st = (st, false) := by
  refine ⟨?_, ?_, ?_⟩ <;>
    simp [AnimSequence.play, AnimSequence.rewind, AnimClip.animateStatus, hs, hc]

theorem inProgress_reentrancy_noop_witness :
    AnimSequence.play { clips := exC2, inProgress := true } =
      ({ clips := exC2, inProgress := true }, []) ∧
    AnimClip.animateStatus { inProgress := true, isRunning := true } =
      ({ inProgress := true, isRunning := true }, false) := by
  have h := inProgress_reentrancy_noop { clips := exC2, inProgress := true }
    { inProgress := true, isRunning := true } rfl rfl
  exact ⟨h.1, h.2.2⟩

end WebChalk
